import Mathlib

/-!
Verification of the prop-firm comparison page (`src/app/page.tsx`).

The page is a pure, synchronous transformation of a static catalog of
proprietary-trading firms into a sorted, annotated comparison table.  The
catalog module itself (`@/lib/propfirms`) is not among the sources, so the
catalog is an explicit parameter here and the record shapes follow the
spec's data model (§3) together with the fields that `page.tsx` reads.
Numbers are modelled as rationals, which makes the arithmetic
(`fee / size * 10000`, fee comparisons) exact.
-/

namespace PropFirmCompare

/-- Modelled from the spec: one funded-account offering (spec §3, "Account
Tier"); the catalog module `@/lib/propfirms` is missing from the sources, so
the record carries exactly the fields the spec lists and `page.tsx` reads:
`size`, `fee`, `payoutSplit`, `maxDrawdown`, `profitTarget`,
`evaluationPhases`, `minTradingDays`. -/
structure Account where
  size : ℚ
  fee : ℚ
  payoutSplit : String
  maxDrawdown : String
  profitTarget : String
  evaluationPhases : ℕ
  minTradingDays : ℕ
  deriving DecidableEq

/-- Modelled from the spec: one proprietary trading firm (spec §3, "Firm");
the catalog module `@/lib/propfirms` is missing from the sources, so the
record carries the fields the spec lists and `page.tsx` reads. -/
structure PropFirm where
  name : String
  tagline : String
  website : String
  founded : ℕ
  headquartered : String
  strengths : List String
  cautions : List String
  accounts : List Account
  deriving DecidableEq

/-- The display row (`FirmRow`, page.tsx lines 6-16).  Optional TypeScript
fields (`fee: number | null`, `payoutSplit?: string`, ...) become `Option`. -/
structure FirmRow where
  firm : PropFirm
  accountSize : ℚ
  fee : Option ℚ
  feePer10k : Option ℚ
  payoutSplit : Option String := none
  drawdown : Option String := none
  profitTarget : Option String := none
  evaluationPhases : Option ℕ := none
  minTradingDays : Option ℕ := none
  deriving DecidableEq

/-- The body of the arrow function that `toFirmRows` maps over the catalog
(page.tsx lines 25-48): find the account tier whose `size` equals the
selected size; if none matches, `fee` and `feePer10k` are `null` and the
descriptive fields are absent. -/
def projectRow (size : ℚ) (firm : PropFirm) : FirmRow :=
  match firm.accounts.find? (fun item => decide (item.size = size)) with
  | none =>
      { firm := firm, accountSize := size, fee := none, feePer10k := none }
  | some account =>
      { firm := firm
        accountSize := size
        fee := some account.fee
        feePer10k := some (account.fee / account.size * 10000)
        payoutSplit := some account.payoutSplit
        drawdown := some account.maxDrawdown
        profitTarget := some account.profitTarget
        evaluationPhases := some account.evaluationPhases
        minTradingDays := some account.minTradingDays }

/-- The row projector `toFirmRows` (page.tsx lines 24-49), with the
module-level import `propFirms` made an explicit parameter. -/
def toFirmRows (propFirms : List PropFirm) (size : ℚ) : List FirmRow :=
  propFirms.map (projectRow size)

/-- The `available` list (page.tsx lines 56-59): fees of the rows whose fee
is not `null`, sorted ascending.  `Array.prototype.sort` with the comparator
`(a, b) => a - b` is a stable ascending numeric sort; on a total order a
sorted permutation is unique, and insertion sort realises it. -/
def availableFees (rows : List FirmRow) : List ℚ :=
  ((rows.filter fun row => row.fee.isSome).map fun row => row.fee.getD 0).insertionSort (· ≤ ·)

/-- The value `cheapestFee` (page.tsx line 62): `available[0] ?? null`. -/
def cheapestFee (rows : List FirmRow) : Option ℚ :=
  (availableFees rows)[0]?

/-- The value `nextBestFee` (page.tsx line 63): `available[1] ?? null`. -/
def nextBestFee (rows : List FirmRow) : Option ℚ :=
  (availableFees rows)[1]?

/-- The key under which the display comparator (page.tsx lines 153-157)
orders rows: a present fee compares by its value and an absent fee compares
as `⊤` (the comparator returns `1` whenever `a.fee === null` and `-1` when
only `b.fee === null`, sending absent-fee rows after every other row). -/
def feeKey (row : FirmRow) : WithTop ℚ :=
  match row.fee with
  | none => ⊤
  | some x => (x : WithTop ℚ)

/-- The total preorder induced by the display comparator: `rowLe a b` holds
exactly when the comparator never demands `b` before `a` (both fees absent,
only `b` absent, or both present with `a.fee ≤ b.fee`). -/
def rowLe (a b : FirmRow) : Prop :=
  feeKey a ≤ feeKey b

instance : DecidableRel rowLe := fun a b =>
  inferInstanceAs (Decidable (feeKey a ≤ feeKey b))

instance : IsTotal FirmRow rowLe :=
  ⟨fun a b => le_total (feeKey a) (feeKey b)⟩

instance : IsTrans FirmRow rowLe :=
  ⟨fun _ _ _ hab hbc => le_trans hab hbc⟩

/-- The rendered row order (page.tsx lines 151-157):
`rows.slice().sort(cmp)`.  JavaScript `sort` is stable, and for a pair of
absent-fee rows the comparator never asks to put the later row first, so
the output is the stable sort by `rowLe`, realised by insertion sort. -/
def sortedRows (rows : List FirmRow) : List FirmRow :=
  rows.insertionSort rowLe

/-- The `isCheapest` flag (page.tsx lines 159-160):
`cheapestFee !== null && row.fee === cheapestFee`. -/
def isCheapest (cheapest : Option ℚ) (row : FirmRow) : Bool :=
  decide (cheapest ≠ none) && decide (row.fee = cheapest)

/-- The savings badge on a cheapest row (page.tsx lines 198-209): rendered
only when `isCheapest && row.fee !== null && nextBestFee !== null`, with
value `Math.max(0, nextBestFee - row.fee)` (displayed via `toFixed(0)`). -/
def savingsNote (cheapest nextBest : Option ℚ) (row : FirmRow) : Option ℚ :=
  if isCheapest cheapest row && decide (row.fee ≠ none) && decide (nextBest ≠ none) then
    some (max 0 (nextBest.getD 0 - row.fee.getD 0))
  else none

/-- Thousands grouping of a reversed digit list: commas every three digits
from the least significant end (en-US `toLocaleString` grouping). -/
def groupRev : List Char → List Char
  | [] => []
  | [a] => [a]
  | [a, b] => [a, b]
  | [a, b, c] => [a, b, c]
  | a :: b :: c :: rest => a :: b :: c :: ',' :: groupRev rest

/-- en-US thousands grouping of a natural number's decimal digits. -/
def natToLocaleString (n : ℕ) : String :=
  ⟨(groupRev (toString n).toList.reverse).reverse⟩

/-- Up to three fraction digits (the `toLocaleString` default), trailing
zeros stripped, from a count of thousandths below 1000. -/
def fracDigits (m : ℕ) : List Char :=
  let padded := [Nat.digitChar (m / 100), Nat.digitChar (m / 10 % 10), Nat.digitChar (m % 10)]
  (padded.reverse.dropWhile (fun c => c = '0')).reverse

/-- Model of `Number.prototype.toLocaleString()` (default en-US options) on
rationals: sign, thousands-grouped integer part, and at most three fraction
digits rounded half away from zero, computed on the reduced
numerator/denominator so that the whole function evaluates by `decide`. -/
def ratToLocaleString (q : ℚ) : String :=
  let den : ℕ := q.den
  let n : ℕ := q.num.natAbs
  let wholePart : ℕ := n / den
  let milli : ℕ := ((n % den) * 2000 + den) / (2 * den)
  let ip : ℕ := if milli = 1000 then wholePart + 1 else wholePart
  let thousandths : ℕ := if milli = 1000 then 0 else milli
  let fs : List Char := fracDigits thousandths
  (if q.num < 0 then "-" else "") ++ natToLocaleString ip ++
    (if fs.isEmpty then "" else "." ++ ⟨fs⟩)

/-- The formatter `formatCurrency` (page.tsx lines 18-19):
`value === null ? "—" : $ followed by value.toLocaleString()`. -/
def formatCurrency (value : Option ℚ) : String :=
  match value with
  | none => "—"
  | some v => "$" ++ ratToLocaleString v

/-- The initial selection state (page.tsx line 52):
`useState<number>(10000)`. -/
def initialSelectedSize : ℚ := 10000

/-- Spec-side list of the fees present among the rows (spec §4.2 "present
fee across all rows"). -/
def presentFees (rows : List FirmRow) : List ℚ :=
  rows.filterMap FirmRow.fee

/-- A sample account tier, for concrete instantiations. -/
def mkAccount (size fee : ℚ) : Account :=
  { size := size, fee := fee, payoutSplit := "80/20", maxDrawdown := "10%",
    profitTarget := "8%", evaluationPhases := 2, minTradingDays := 3 }

/-- A sample firm, for concrete instantiations. -/
def mkFirm (name : String) (accounts : List Account) : PropFirm :=
  { name := name, tagline := "tagline", website := "https://example.com",
    founded := 2020, headquartered := "Austin", strengths := [], cautions := [],
    accounts := accounts }

/-- The scenario catalog of spec §8: A(fee 100 at 10000), B(fee 150 at
10000), C(no tier at 10000). -/
def demoCatalog : List PropFirm :=
  [mkFirm "Alpha" [mkAccount 10000 100],
   mkFirm "Beta" [mkAccount 10000 150],
   mkFirm "Gamma" [mkAccount 5000 60]]

/-- The row that `demoCatalog`'s firm Alpha projects to at size 10000. -/
def rowAlpha : FirmRow := projectRow 10000 (mkFirm "Alpha" [mkAccount 10000 100])

/-- A catalog with exactly two firms tied at the minimum fee. -/
def tieCatalog : List PropFirm :=
  [mkFirm "TieA" [mkAccount 10000 100],
   mkFirm "TieB" [mkAccount 10000 100]]

/-- The row that `tieCatalog`'s first firm projects to at size 10000. -/
def rowTieA : FirmRow := projectRow 10000 (mkFirm "TieA" [mkAccount 10000 100])

/-- The row that `tieCatalog`'s second firm projects to at size 10000. -/
def rowTieB : FirmRow := projectRow 10000 (mkFirm "TieB" [mkAccount 10000 100])

/-- A catalog whose cheapest tier at 10000 has fee 0. -/
def zeroCatalog : List PropFirm :=
  [mkFirm "Zero" [mkAccount 10000 0],
   mkFirm "Beta" [mkAccount 10000 150],
   mkFirm "Gamma" [mkAccount 5000 60]]

/-- The row that `zeroCatalog`'s firm Zero projects to at size 10000. -/
def rowZero : FirmRow := projectRow 10000 (mkFirm "Zero" [mkAccount 10000 0])

/-! ### Helper lemmas -/

theorem projectRow_firm (S : ℚ) (firm : PropFirm) : (projectRow S firm).firm = firm := by
  unfold projectRow
  cases firm.accounts.find? (fun item => decide (item.size = S)) <;> rfl

theorem projectRow_accountSize (S : ℚ) (firm : PropFirm) :
    (projectRow S firm).accountSize = S := by
  unfold projectRow
  cases firm.accounts.find? (fun item => decide (item.size = S)) <;> rfl

theorem filter_isSome_map_getD (rows : List FirmRow) :
    ((rows.filter fun row => row.fee.isSome).map fun row => row.fee.getD 0) =
      rows.filterMap FirmRow.fee := by
  induction rows with
  | nil => rfl
  | cons r rest ih =>
      cases h : r.fee <;>
        simp [List.filter_cons, List.filterMap_cons, h, ih]

theorem availableFees_eq (rows : List FirmRow) :
    availableFees rows = (presentFees rows).insertionSort (· ≤ ·) := by
  unfold availableFees presentFees
  rw [filter_isSome_map_getD]

theorem sorted_index_zero_none (l : List ℚ) :
    (l.insertionSort (· ≤ ·))[0]? = none ↔ l = [] := by
  constructor
  · intro h
    have hperm := l.perm_insertionSort (· ≤ ·)
    cases hs : l.insertionSort (· ≤ ·) with
    | nil => rw [hs] at hperm; exact hperm.symm.eq_nil
    | cons a t => rw [hs] at h; simp at h
  · intro h; subst h; rfl

theorem sorted_index_zero_some (l : List ℚ) (m : ℚ) :
    (l.insertionSort (· ≤ ·))[0]? = some m ↔ m ∈ l ∧ ∀ g ∈ l, m ≤ g := by
  have hperm := l.perm_insertionSort (· ≤ ·)
  have hsorted := l.sorted_insertionSort (· ≤ ·)
  constructor
  · intro h
    cases hs : l.insertionSort (· ≤ ·) with
    | nil => rw [hs] at h; simp at h
    | cons a t =>
        rw [hs] at h hperm hsorted
        simp only [List.getElem?_cons_zero, Option.some_inj] at h
        rw [h] at hperm hsorted
        refine ⟨hperm.mem_iff.mp (List.mem_cons_self m t), ?_⟩
        intro g hg
        rcases List.mem_cons.mp (hperm.mem_iff.mpr hg) with hg' | hg'
        · exact le_of_eq hg'.symm
        · exact List.rel_of_sorted_cons hsorted g hg'
  · rintro ⟨hm, hall⟩
    cases hs : l.insertionSort (· ≤ ·) with
    | nil =>
        rw [hs] at hperm
        rw [hperm.symm.eq_nil] at hm
        exact absurd hm (List.not_mem_nil m)
    | cons a t =>
        rw [hs] at hperm hsorted
        have ha : a ∈ l := hperm.mem_iff.mp (List.mem_cons_self a t)
        have hma : m ≤ a := hall a ha
        have ham : a ≤ m := by
          rcases List.mem_cons.mp (hperm.mem_iff.mpr hm) with h' | h'
          · exact le_of_eq h'.symm
          · exact List.rel_of_sorted_cons hsorted m h'
        simp [le_antisymm ham hma]

theorem sorted_index_one_none (l : List ℚ) :
    (l.insertionSort (· ≤ ·))[1]? = none ↔ l.length < 2 := by
  have hlen : (l.insertionSort (· ≤ ·)).length = l.length :=
    (l.perm_insertionSort (· ≤ ·)).length_eq
  rw [List.getElem?_eq_none_iff, hlen]
  omega

theorem sorted_index_one_tie (l : List ℚ) (m : ℚ)
    (hall : ∀ g ∈ l, m ≤ g) (hcount : 2 ≤ l.count m) :
    (l.insertionSort (· ≤ ·))[1]? = some m := by
  have hperm := l.perm_insertionSort (· ≤ ·)
  have hsorted := l.sorted_insertionSort (· ≤ ·)
  have hm : m ∈ l := List.count_pos_iff.mp (by omega)
  have h0 : (l.insertionSort (· ≤ ·))[0]? = some m :=
    (sorted_index_zero_some l m).mpr ⟨hm, hall⟩
  cases hs : l.insertionSort (· ≤ ·) with
  | nil => rw [hs] at h0; simp at h0
  | cons a t =>
      rw [hs] at h0 hperm hsorted
      simp only [List.getElem?_cons_zero, Option.some_inj] at h0
      rw [h0] at hperm hsorted ⊢
      have hcount' : 2 ≤ (m :: t).count m := by
        rw [hperm.count_eq]; exact hcount
      have htm : m ∈ t := by
        rw [List.count_cons_self] at hcount'
        exact List.count_pos_iff.mp (by omega)
      cases ht : t with
      | nil => rw [ht] at htm; exact absurd htm (List.not_mem_nil m)
      | cons b t' =>
          rw [ht] at hperm hsorted htm
          have hb : b ∈ l := hperm.mem_iff.mp (List.mem_cons_of_mem m (List.mem_cons_self b t'))
          have hmb : m ≤ b := hall b hb
          have hbm : b ≤ m := by
            rcases List.mem_cons.mp htm with h' | h'
            · exact le_of_eq h'.symm
            · exact List.rel_of_sorted_cons hsorted.of_cons m h'
          simp [le_antisymm hbm hmb]

theorem mem_presentFees {rows : List FirmRow} {row : FirmRow} {f : ℚ}
    (hrow : row ∈ rows) (hf : row.fee = some f) : f ∈ presentFees rows :=
  List.mem_filterMap.mpr ⟨row, hrow, hf⟩

theorem isCheapest_iff (c : Option ℚ) (row : FirmRow) :
    isCheapest c row = true ↔ c ≠ none ∧ row.fee = c := by
  simp [isCheapest]

theorem feeKey_eq_of_fee_eq {a b : FirmRow} (h : a.fee = b.fee) : feeKey a = feeKey b := by
  unfold feeKey
  rw [h]

theorem rowLe_iff (a b : FirmRow) :
    rowLe a b ↔ (a.fee = none → b.fee = none) ∧
      ∀ x y : ℚ, a.fee = some x → b.fee = some y → x ≤ y := by
  unfold rowLe feeKey
  cases ha : a.fee <;> cases hb : b.fee <;>
    simp [top_le_iff, WithTop.coe_le_coe]

theorem projectRow_fee_isSome (S : ℚ) (firm : PropFirm) :
    (projectRow S firm).fee.isSome = true ↔ ∃ t ∈ firm.accounts, t.size = S := by
  unfold projectRow
  cases h : firm.accounts.find? (fun item => decide (item.size = S)) with
  | none =>
      simp only [Option.isSome_none, Bool.false_eq_true, false_iff, not_exists]
      intro t ht
      have hfind := List.find?_eq_none.mp h t ht.1
      rw [ht.2] at hfind
      simp at hfind
  | some account =>
      simp only [Option.isSome_some, true_iff]
      have hp := List.find?_some h
      simp only [decide_eq_true_eq] at hp
      exact ⟨account, List.mem_of_find?_eq_some h, hp⟩

theorem projectRow_fee_none_fields (S : ℚ) (firm : PropFirm)
    (h : (projectRow S firm).fee = none) :
    (projectRow S firm).feePer10k = none ∧ (projectRow S firm).payoutSplit = none ∧
    (projectRow S firm).drawdown = none ∧ (projectRow S firm).profitTarget = none ∧
    (projectRow S firm).evaluationPhases = none ∧
    (projectRow S firm).minTradingDays = none := by
  unfold projectRow at h ⊢
  cases hf : firm.accounts.find? (fun item => decide (item.size = S)) with
  | none => exact ⟨rfl, rfl, rfl, rfl, rfl, rfl⟩
  | some account =>
      rw [hf] at h
      exact absurd h (Option.some_ne_none _)

theorem projectRow_fee_some_fields (S : ℚ) (firm : PropFirm)
    (h : (projectRow S firm).fee.isSome = true) :
    (projectRow S firm).feePer10k.isSome = true ∧
    (projectRow S firm).payoutSplit.isSome = true ∧
    (projectRow S firm).drawdown.isSome = true ∧
    (projectRow S firm).profitTarget.isSome = true ∧
    (projectRow S firm).evaluationPhases.isSome = true ∧
    (projectRow S firm).minTradingDays.isSome = true := by
  unfold projectRow at h ⊢
  cases hf : firm.accounts.find? (fun item => decide (item.size = S)) with
  | none =>
      rw [hf] at h
      exact Bool.noConfusion h
  | some account => exact ⟨rfl, rfl, rfl, rfl, rfl, rfl⟩

theorem rowAlpha_mem : rowAlpha ∈ toFirmRows demoCatalog 10000 :=
  List.mem_map_of_mem (projectRow 10000) (List.mem_cons_self _ _)

theorem rowAlpha_mem_sorted : rowAlpha ∈ sortedRows (toFirmRows demoCatalog 10000) := by
  unfold sortedRows
  rw [List.mem_insertionSort]
  exact rowAlpha_mem

theorem rowZero_mem : rowZero ∈ toFirmRows zeroCatalog 10000 :=
  List.mem_map_of_mem (projectRow 10000) (List.mem_cons_self _ _)

theorem tieRows_sublist :
    List.Sublist [rowTieA, rowTieB] (toFirmRows tieCatalog 10000) :=
  List.Sublist.refl _

/-! ### Claim theorems -/

/-- Claim C1: for every selected size `S`, `toFirmRows` returns exactly one
display row per firm, in catalog order; a row's fee, feePer10k and
tier-derived descriptive fields are present iff the firm has an account
tier whose size equals `S`; when no tier matches, fee and feePer10k are
`none` and the descriptive fields are absent. -/
theorem toFirmRows_projection (catalog : List PropFirm) (S : ℚ) :
    (toFirmRows catalog S).map FirmRow.firm = catalog ∧
    ∀ row ∈ toFirmRows catalog S,
      row.accountSize = S ∧
      (row.fee.isSome = true ↔ ∃ t ∈ row.firm.accounts, t.size = S) ∧
      (row.fee = none → row.feePer10k = none ∧ row.payoutSplit = none ∧
        row.drawdown = none ∧ row.profitTarget = none ∧
        row.evaluationPhases = none ∧ row.minTradingDays = none) ∧
      (row.fee.isSome = true → row.feePer10k.isSome = true ∧
        row.payoutSplit.isSome = true ∧ row.drawdown.isSome = true ∧
        row.profitTarget.isSome = true ∧ row.evaluationPhases.isSome = true ∧
        row.minTradingDays.isSome = true) := by
  constructor
  · unfold toFirmRows
    rw [List.map_map]
    have h : catalog.map (FirmRow.firm ∘ projectRow S) = catalog.map id :=
      List.map_congr_left fun firm _ => projectRow_firm S firm
    rw [h, List.map_id]
  · intro row hrow
    unfold toFirmRows at hrow
    obtain ⟨firm, _, rfl⟩ := List.mem_map.mp hrow
    refine ⟨projectRow_accountSize S firm, ?_,
      fun h => projectRow_fee_none_fields S firm h,
      fun h => projectRow_fee_some_fields S firm h⟩
    rw [projectRow_firm]
    exact projectRow_fee_isSome S firm

/-- Witness for C1 at the spec §8 scenario catalog. -/
theorem toFirmRows_projection_witness :
    rowAlpha.accountSize = 10000 ∧ rowAlpha.fee.isSome = true :=
  ⟨((toFirmRows_projection demoCatalog 10000).2 rowAlpha rowAlpha_mem).1,
   ((toFirmRows_projection demoCatalog 10000).2 rowAlpha rowAlpha_mem).2.1.mpr
     (by decide)⟩

/-- Claim C2: `cheapestFee` is the minimum of the present fees (absent iff
there is none), and `nextBestFee` is the element at index 1 of the
ascending-sorted list of present fees, absent iff fewer than two fees are
present. -/
theorem cheapest_and_nextBest_correct (catalog : List PropFirm) (S : ℚ) :
    (cheapestFee (toFirmRows catalog S) = none ↔
      presentFees (toFirmRows catalog S) = []) ∧
    (∀ m : ℚ, cheapestFee (toFirmRows catalog S) = some m ↔
      m ∈ presentFees (toFirmRows catalog S) ∧
        ∀ f ∈ presentFees (toFirmRows catalog S), m ≤ f) ∧
    (nextBestFee (toFirmRows catalog S) = none ↔
      (presentFees (toFirmRows catalog S)).length < 2) ∧
    nextBestFee (toFirmRows catalog S) =
      ((presentFees (toFirmRows catalog S)).insertionSort (· ≤ ·))[1]? := by
  refine ⟨?_, ?_, ?_, ?_⟩
  · unfold cheapestFee
    rw [availableFees_eq]
    exact sorted_index_zero_none _
  · intro m
    unfold cheapestFee
    rw [availableFees_eq]
    exact sorted_index_zero_some _ m
  · unfold nextBestFee
    rw [availableFees_eq]
    exact sorted_index_one_none _
  · unfold nextBestFee
    rw [availableFees_eq]

/-- Witness for C2 at the spec §8 scenario catalog. -/
theorem cheapest_and_nextBest_witness :
    cheapestFee (toFirmRows demoCatalog 10000) = some 100 ∧
    nextBestFee (toFirmRows demoCatalog 10000) = some 150 := by
  refine ⟨((cheapest_and_nextBest_correct demoCatalog 10000).2.1 100).mpr
    ⟨by decide, by decide⟩, ?_⟩
  rw [(cheapest_and_nextBest_correct demoCatalog 10000).2.2.2]
  decide

/-- Claim C3: a row carries the "Cheapest" flag iff its fee is present and
equals the minimum present fee; in particular all tied minima are flagged
and nothing is flagged when no fee is present. -/
theorem cheapest_flag_consistent (catalog : List PropFirm) (S : ℚ) :
    ∀ row ∈ toFirmRows catalog S,
      (isCheapest (cheapestFee (toFirmRows catalog S)) row = true ↔
        ∃ f : ℚ, row.fee = some f ∧
          ∀ g ∈ presentFees (toFirmRows catalog S), f ≤ g) := by
  intro row hrow
  rw [isCheapest_iff]
  have hchar0 : cheapestFee (toFirmRows catalog S) = none ↔
      presentFees (toFirmRows catalog S) = [] := by
    unfold cheapestFee
    rw [availableFees_eq]
    exact sorted_index_zero_none _
  have hchar : ∀ m : ℚ, cheapestFee (toFirmRows catalog S) = some m ↔
      m ∈ presentFees (toFirmRows catalog S) ∧
        ∀ g ∈ presentFees (toFirmRows catalog S), m ≤ g := by
    intro m
    unfold cheapestFee
    rw [availableFees_eq]
    exact sorted_index_zero_some _ m
  rcases hc : cheapestFee (toFirmRows catalog S) with _ | m
  · have hnil := hchar0.mp hc
    constructor
    · rintro ⟨hne, _⟩
      exact absurd rfl hne
    · rintro ⟨f, hf, _⟩
      have hmem := mem_presentFees hrow hf
      rw [hnil] at hmem
      exact absurd hmem (List.not_mem_nil f)
  · obtain ⟨hmmem, hmall⟩ := (hchar m).mp hc
    constructor
    · rintro ⟨_, hfee⟩
      exact ⟨m, hfee, hmall⟩
    · rintro ⟨f, hf, hall⟩
      refine ⟨by simp, ?_⟩
      have hfm : f = m :=
        le_antisymm (hall m hmmem) (hmall f (mem_presentFees hrow hf))
      rw [hf, hfm]

/-- Witness for C3: Alpha is flagged at the spec §8 scenario catalog. -/
theorem cheapest_flag_witness :
    isCheapest (cheapestFee (toFirmRows demoCatalog 10000)) rowAlpha = true :=
  (cheapest_flag_consistent demoCatalog 10000 rowAlpha rowAlpha_mem).mpr
    ⟨100, by decide, by decide⟩

/-- Claim C4: in display order, rows with present fees come in ascending
fee order and every absent-fee row comes after every present-fee row. -/
theorem sorted_output_order (catalog : List PropFirm) (S : ℚ) :
    (sortedRows (toFirmRows catalog S)).Pairwise
      (fun a b => (a.fee = none → b.fee = none) ∧
        ∀ x y : ℚ, a.fee = some x → b.fee = some y → x ≤ y) := by
  unfold sortedRows
  have h := List.sorted_insertionSort rowLe (toFirmRows catalog S)
  exact h.imp fun hab => (rowLe_iff _ _).mp hab

/-- Witness for C4 at the spec §8 scenario catalog. -/
theorem sorted_output_order_witness :
    (sortedRows (toFirmRows demoCatalog 10000)).Pairwise
      (fun a b => (a.fee = none → b.fee = none) ∧
        ∀ x y : ℚ, a.fee = some x → b.fee = some y → x ≤ y) :=
  sorted_output_order demoCatalog 10000

/-- Claim C5: the display sort is stable: two rows with equal fees (which
covers two absent fees) keep their catalog relative order. -/
theorem sorted_output_stable (catalog : List PropFirm) (S : ℚ) (a b : FirmRow)
    (hab : List.Sublist [a, b] (toFirmRows catalog S)) (hfee : a.fee = b.fee) :
    List.Sublist [a, b] (sortedRows (toFirmRows catalog S)) := by
  unfold sortedRows
  exact List.pair_sublist_insertionSort
    (show rowLe a b from le_of_eq (feeKey_eq_of_fee_eq hfee)) hab

/-- Witness for C5 at the tied catalog. -/
theorem sorted_output_stable_witness :
    List.Sublist [rowTieA, rowTieB] (sortedRows (toFirmRows tieCatalog 10000)) :=
  sorted_output_stable tieCatalog 10000 rowTieA rowTieB tieRows_sublist (by decide)

/-- Claim C6: a projected row with a present fee has
`feePer10k = fee / S * 10000`. -/
theorem feePer10k_correct (catalog : List PropFirm) (S : ℚ) :
    ∀ row ∈ toFirmRows catalog S, ∀ f : ℚ, row.fee = some f →
      row.feePer10k = some (f / S * 10000) := by
  intro row hrow f hf
  unfold toFirmRows at hrow
  obtain ⟨firm, _, rfl⟩ := List.mem_map.mp hrow
  unfold projectRow at hf ⊢
  cases h : firm.accounts.find? (fun item => decide (item.size = S)) with
  | none =>
      rw [h] at hf
      exact Option.noConfusion hf
  | some account =>
      rw [h] at hf
      have hsize := List.find?_some h
      simp only [decide_eq_true_eq] at hsize
      have hfee : account.fee = f := Option.some.inj hf
      show some (account.fee / account.size * 10000) = some (f / S * 10000)
      rw [hfee, hsize]

/-- Witness for C6 at the spec §8 scenario catalog. -/
theorem feePer10k_witness :
    rowAlpha.feePer10k = some (100 / 10000 * 10000) :=
  feePer10k_correct demoCatalog 10000 rowAlpha rowAlpha_mem 100 (by decide)

/-- Claim C7 counterexample: two firms tie at the minimum fee 100 and no
third firm exists; the claim says `nextBestFee` is then absent (or the
third-distinct fee), but the code yields `available[1] = 100`, the
duplicated minimum. -/
theorem nextBest_tie_cex :
    (toFirmRows tieCatalog 10000).length = 2 ∧
    presentFees (toFirmRows tieCatalog 10000) = [100, 100] ∧
    cheapestFee (toFirmRows tieCatalog 10000) = some 100 ∧
    nextBestFee (toFirmRows tieCatalog 10000) = some 100 := by
  decide

/-- Claim C7 as amended: when the minimum present fee occurs at least twice,
all rows carrying it are flagged cheapest and `nextBestFee` equals that
minimum itself (the duplicate at index 1 of the ascending fee list); it is
not the third-distinct fee and not absent. -/
theorem nextBest_tie_amended (catalog : List PropFirm) (S : ℚ) (m : ℚ)
    (hall : ∀ g ∈ presentFees (toFirmRows catalog S), m ≤ g)
    (hcount : 2 ≤ (presentFees (toFirmRows catalog S)).count m) :
    cheapestFee (toFirmRows catalog S) = some m ∧
    nextBestFee (toFirmRows catalog S) = some m ∧
    ∀ row ∈ toFirmRows catalog S, row.fee = some m →
      isCheapest (cheapestFee (toFirmRows catalog S)) row = true := by
  have hm : m ∈ presentFees (toFirmRows catalog S) :=
    List.count_pos_iff.mp (by omega)
  have h0 : cheapestFee (toFirmRows catalog S) = some m := by
    unfold cheapestFee
    rw [availableFees_eq]
    exact (sorted_index_zero_some _ m).mpr ⟨hm, hall⟩
  refine ⟨h0, ?_, ?_⟩
  · unfold nextBestFee
    rw [availableFees_eq]
    exact sorted_index_one_tie _ m hall hcount
  · intro row _ hfee
    rw [isCheapest_iff, h0]
    exact ⟨by simp, by rw [hfee]⟩

/-- Witness for the amended C7 at the tied catalog. -/
theorem nextBest_tie_amended_witness :
    cheapestFee (toFirmRows tieCatalog 10000) = some 100 ∧
    nextBestFee (toFirmRows tieCatalog 10000) = some 100 :=
  ⟨(nextBest_tie_amended tieCatalog 10000 100 (by decide) (by decide)).1,
   (nextBest_tie_amended tieCatalog 10000 100 (by decide) (by decide)).2.1⟩

/-- Claim C8: a flagged row with present fee and present `nextBestFee` gets
the savings badge `max 0 (nextBestFee - fee)`; the badge is omitted
whenever `nextBestFee` is absent. -/
theorem savings_note_correct (catalog : List PropFirm) (S : ℚ) :
    ∀ row ∈ sortedRows (toFirmRows catalog S),
      (∀ n f : ℚ, nextBestFee (toFirmRows catalog S) = some n →
        row.fee = some f →
        isCheapest (cheapestFee (toFirmRows catalog S)) row = true →
        savingsNote (cheapestFee (toFirmRows catalog S))
          (nextBestFee (toFirmRows catalog S)) row = some (max 0 (n - f))) ∧
      (nextBestFee (toFirmRows catalog S) = none →
        savingsNote (cheapestFee (toFirmRows catalog S))
          (nextBestFee (toFirmRows catalog S)) row = none) := by
  intro row _
  constructor
  · intro n f hn hf hcheap
    unfold savingsNote
    rw [hcheap, hn, hf]
    simp
  · intro hn
    unfold savingsNote
    rw [hn]
    simp

/-- Witness for C8: Alpha's badge at the spec §8 scenario catalog says
save 50. -/
theorem savings_note_witness :
    savingsNote (cheapestFee (toFirmRows demoCatalog 10000))
      (nextBestFee (toFirmRows demoCatalog 10000)) rowAlpha =
      some (max 0 (150 - 100)) :=
  ((savings_note_correct demoCatalog 10000 rowAlpha rowAlpha_mem_sorted).1)
    150 100 (by decide) (by decide) (by decide)

/-- Claim C10: a matched tier with fee 0 is a present fee, distinct from an
absent one: with non-negative catalog fees, `cheapestFee` is `some 0`, the
zero-fee row is flagged cheapest and renders as `$0`, while absent-fee rows
render the placeholder glyph. -/
theorem zero_fee_is_present (catalog : List PropFirm) (S : ℚ) (row : FirmRow)
    (hrow : row ∈ toFirmRows catalog S) (h0 : row.fee = some 0)
    (hnn : ∀ g ∈ presentFees (toFirmRows catalog S), 0 ≤ g) :
    cheapestFee (toFirmRows catalog S) = some 0 ∧
    isCheapest (cheapestFee (toFirmRows catalog S)) row = true ∧
    formatCurrency row.fee = "$0" ∧
    ∀ r ∈ toFirmRows catalog S, r.fee = none → formatCurrency r.fee = "—" := by
  have hc : cheapestFee (toFirmRows catalog S) = some 0 := by
    unfold cheapestFee
    rw [availableFees_eq]
    exact (sorted_index_zero_some _ 0).mpr ⟨mem_presentFees hrow h0, hnn⟩
  refine ⟨hc, ?_, ?_, ?_⟩
  · rw [isCheapest_iff, hc]
    exact ⟨by simp, by rw [h0]⟩
  · rw [h0]
    decide
  · intro r _ hr
    rw [hr]
    rfl

/-- Witness for C10 at the zero-fee catalog. -/
theorem zero_fee_witness :
    cheapestFee (toFirmRows zeroCatalog 10000) = some 0 ∧
    isCheapest (cheapestFee (toFirmRows zeroCatalog 10000)) rowZero = true ∧
    formatCurrency rowZero.fee = "$0" :=
  ⟨(zero_fee_is_present zeroCatalog 10000 rowZero rowZero_mem (by decide)
      (by decide)).1,
   (zero_fee_is_present zeroCatalog 10000 rowZero rowZero_mem (by decide)
      (by decide)).2.1,
   (zero_fee_is_present zeroCatalog 10000 rowZero rowZero_mem (by decide)
      (by decide)).2.2.1⟩

end PropFirmCompare
